import Mathlib

/-!
Verification development for the SmartTutors text-to-speech controller
(`SpeechManager` in the repository's speech script).

Strings are embedded as `List Char` (JS strings are sequences of UTF-16
units; all inputs of interest here are plain characters).  The DOM-based
HTML-tag strip at the top of `prepareText` (`tempDiv.innerHTML = text;
tempDiv.textContent`) is a browser boundary: the embedding takes the
extracted text content as its input, and every transformation the code
performs on that text is modelled faithfully below.  The JS regex
`replace` calls are embedded as left-to-right scanners with exactly the
semantics of the corresponding global regex replacement.
-/

namespace SmartTutors

/-- Strings as lists of characters. -/
abbrev Str := List Char

/-- The characters matched by the JS regex class `\s` (whitespace):
space, tab, line feed, carriage return, vertical tab, form feed,
no-break space, BOM.  Also the set removed by `String.prototype.trim`. -/
def isJsSpace (c : Char) : Bool :=
  c == ' ' || c == '\t' || c == '\n' || c == '\r' ||
  c.val == 11 || c.val == 12 || c.val == 160 || c.val == 0xFEFF

/-- The sentence punctuation class `[.!?]` of the duplicate-punctuation
regex in `prepareText`. -/
def isPunctChar (c : Char) : Bool :=
  c == '.' || c == '!' || c == '?'

/-- The JS word-character class `\w` = `[A-Za-z0-9_]`, which determines
the word boundaries `\b` used by the URL and long-number regexes. -/
def isJsWordChar (c : Char) : Bool :=
  c.isAlphanum || c == '_'

/-- Stage 1 of `prepareText`'s cleanup chain:
`.replace(/\s+/g, ' ')` — every maximal run of whitespace becomes a
single space.  The flag records whether the scanner is inside a run. -/
def collapseWS (inRun : Bool) : Str → Str
  | [] => []
  | c :: cs =>
    if isJsSpace c then
      if inRun then collapseWS true cs else ' ' :: collapseWS true cs
    else c :: collapseWS false cs

/-- Stage 2: `.replace(/\n+/g, '. ')` — every maximal run of line feeds
becomes a period and a space.  (After stage 1 no line feed remains, so
in the composed chain this stage never fires; it is embedded anyway,
faithful to the source order.) -/
def newlineStep (inRun : Bool) : Str → Str
  | [] => []
  | c :: cs =>
    if c == '\n' then
      if inRun then newlineStep true cs else '.' :: ' ' :: newlineStep true cs
    else c :: newlineStep false cs

/-- Scanner state for stage 3 (`/([.!?])\s*([.!?])+/g` → `'$1'`):
`norm` = no match in progress; `saw ws` = a punctuation mark was read
(and already emitted, it is the `$1` capture) followed so far by the
buffered whitespace `ws`; `run` = the match succeeded and the scanner is
consuming the greedy trailing punctuation run. -/
inductive PunctScan
  | norm
  | saw (ws : Str)
  | run

/-- Stage 3: `.replace(/([.!?])\s*([.!?])+/g, '$1')` — a punctuation
mark followed by optional whitespace and at least one further
punctuation mark collapses to the first mark.  Scanning resumes after
each match, exactly as a global JS regex replace does. -/
def punctGo (st : PunctScan) : Str → Str
  | [] =>
    match st with
    | .saw ws => ws
    | _ => []
  | c :: cs =>
    match st with
    | .norm =>
      if isPunctChar c then c :: punctGo (.saw []) cs
      else c :: punctGo .norm cs
    | .saw ws =>
      if isPunctChar c then punctGo .run cs
      else if isJsSpace c then punctGo (.saw (ws ++ [c])) cs
      else ws ++ c :: punctGo .norm cs
    | .run =>
      if isPunctChar c then punctGo .run cs
      else c :: punctGo .norm cs

/-- The scheme prefix `http://` of the URL regex. -/
def httpTarget : Str := "http://".data

/-- The scheme prefix `https://` of the URL regex. -/
def httpsTarget : Str := "https://".data

/-- The literal replacement token of the URL regex. -/
def linkWord : Str := "link".data

/-- Last character of a buffer (the buffers below are never empty when
this is consulted). -/
def lastChar (l : Str) : Char := l.getLast?.getD ' '

/-- Scanner state for stage 4 (`/\b(https?:\/\/[^\s]+)/g` → `'link'`):
`scan pw` = ordinary scanning, `pw` records whether the previous
character was a word character (for the `\b` test); `build buf` = the
consumed characters `buf` form a proper prefix of `http://` or
`https://`; `body buf` = the full scheme `buf` was consumed and the
regex still needs at least one non-space character; `inU` = inside the
greedy `[^\s]+` body (the token `link` has been emitted). -/
inductive UrlScan
  | scan (pw : Bool)
  | build (buf : Str)
  | body (buf : Str)
  | inU

/-- Stage 4: `.replace(/\b(https?:\/\/[^\s]+)/g, 'link')` — a URL-like
substring starting at a word boundary is replaced by the token `link`.
On a failed partial match the buffered characters are emitted unchanged
and scanning resumes (no later match can start inside the buffer, whose
only `h` is its first character). -/
def urlGo (st : UrlScan) : Str → Str
  | [] =>
    match st with
    | .build buf => buf
    | .body buf => buf
    | _ => []
  | c :: cs =>
    match st with
    | .scan pw =>
      if c == 'h' && !pw then urlGo (.build ['h']) cs
      else c :: urlGo (.scan (isJsWordChar c)) cs
    | .build buf =>
      if buf ++ [c] == httpTarget || buf ++ [c] == httpsTarget then
        urlGo (.body (buf ++ [c])) cs
      else if (buf ++ [c]).isPrefixOf httpTarget || (buf ++ [c]).isPrefixOf httpsTarget then
        urlGo (.build (buf ++ [c])) cs
      else
        buf ++
          (if c == 'h' && !isJsWordChar (lastChar buf) then urlGo (.build ['h']) cs
           else c :: urlGo (.scan (isJsWordChar c)) cs)
    | .body buf =>
      if isJsSpace c then buf ++ c :: urlGo (.scan false) cs
      else linkWord ++ urlGo .inU cs
    | .inU =>
      if isJsSpace c then c :: urlGo (.scan false) cs
      else urlGo .inU cs

/-- Flush of the long-number scanner: a buffered maximal digit run is
joined with spaces exactly when the `\b\d{4,}\b` match succeeded —
the run started at a word boundary (`startOK`), ends at one (`endOK`),
and has length at least 4; otherwise it is emitted unchanged. -/
def digitFlush (startOK endOK : Bool) (buf : Str) : Str :=
  if startOK = true ∧ endOK = true ∧ 4 ≤ buf.length then
    List.intersperse ' ' buf
  else buf

/-- Stage 5: `.replace(/\b\d{4,}\b/g, m => m.split('').join(' '))` —
a maximal digit run of length at least 4 delimited by word boundaries is
rewritten with a space between each pair of adjacent digits.  `prevWord`
records whether the previous character was a word character, `startOK`
whether the run being buffered in `buf` began at a word boundary. -/
def digitGo (prevWord startOK : Bool) (buf : Str) : Str → Str
  | [] => digitFlush startOK true buf
  | c :: cs =>
    if c.isDigit then
      digitGo true (if buf.isEmpty then !prevWord else startOK) (buf ++ [c]) cs
    else
      digitFlush startOK (!isJsWordChar c) buf ++ c :: digitGo (isJsWordChar c) true [] cs

/-- Stage 5 with the scanner's initial state (start of string is a word
boundary). -/
def breakLongNumbers (t : Str) : Str := digitGo false true [] t

/-- `String.prototype.trim()`: strip JS whitespace from both ends. -/
def trimJS (t : Str) : Str :=
  ((t.dropWhile isJsSpace).reverse.dropWhile isJsSpace).reverse

/-- The fixed truncation notice appended by `prepareText` when the
cleaned text exceeds 3000 units. -/
def truncNotice : Str := "... text truncated for speech.".data

/-- The whole cleanup chain of `prepareText`, in source order:
whitespace collapse, newline replacement, duplicate-punctuation
collapse, URL replacement, long-number spacing, trim. -/
def cleanChain (t : Str) : Str :=
  trimJS (breakLongNumbers (urlGo (.scan false) (punctGo .norm
    (newlineStep false (collapseWS false t)))))

/-- `SpeechManager.prepareText`: empty (falsy) input yields the empty
string; otherwise the cleaned text, truncated to its first 3000 units
plus the fixed notice when it exceeds 3000 units. -/
def prepareText (t : Str) : Str :=
  if t.isEmpty then []
  else
    let c := cleanChain t
    if 3000 < c.length then c.take 3000 ++ truncNotice else c

/-! ## The speech session controller

`SpeechManager` and the browser speech engine (`window.speechSynthesis`)
are embedded as explicit state.  The engine's asynchronous per-utterance
notifications (start/end/error/pause/resume) are modelled as a pending
list: engine calls append notifications, and `deliverEvent` replays the
handler that `speak` installed on every utterance.  Engine calls and UI
hook invocations are recorded in an observable trace. -/

/-- A `VoiceHandle` of the engine's catalog: display name and BCP-47
language tag. -/
structure Voice where
  name : Str
  lang : Str
deriving DecidableEq

/-- `SpeechManager.settings`: process-wide defaults merged into every
utterance request. -/
structure Settings where
  rate : ℚ
  pitch : ℚ
  volume : ℚ
  voice : Option Voice
deriving DecidableEq

/-- The constructor defaults: `{ rate: 0.9, pitch: 1, volume: 0.8,
voice: null }`. -/
def initSettings : Settings :=
  { rate := mkRat 9 10, pitch := 1, volume := mkRat 4 5, voice := none }

/-- A `SpeechSynthesisUtterance` as configured by `speak`. -/
structure Utterance where
  text : Str
  rate : ℚ
  pitch : ℚ
  volume : ℚ
  voice : Option Voice
deriving DecidableEq

/-- Why an utterance's `end` notification fired: the engine finished it,
or `cancel()` removed it from the queue. -/
inductive EndCause
  | natural
  | cancelled
deriving DecidableEq

/-- An asynchronous per-utterance engine notification. -/
inductive EngEvent
  | started (u : Utterance)
  | ended (u : Utterance) (cause : EndCause)
  | errored (u : Utterance)
  | pausedEv (u : Utterance)
  | resumedEv (u : Utterance)
deriving DecidableEq

/-- The engine (`window.speechSynthesis`): its utterance queue, the
`speaking` and `paused` flags, and the not-yet-delivered notifications. -/
structure Engine where
  queue : List Utterance
  speaking : Bool
  paused : Bool
  pending : List EngEvent
deriving DecidableEq

/-- `synth.cancel()`: drop every queued utterance (each will report
`end` caused by cancellation), stop speaking, clear the pause flag. -/
def engineCancel (e : Engine) : Engine :=
  { queue := [], speaking := false, paused := false,
    pending := e.pending ++ e.queue.map (fun u => EngEvent.ended u .cancelled) }

/-- `synth.speak(u)`: enqueue the utterance and start speaking; the
engine will report its `start`. -/
def engineSpeak (e : Engine) (u : Utterance) : Engine :=
  { e with queue := e.queue ++ [u], speaking := true,
           pending := e.pending ++ [EngEvent.started u] }

/-- `synth.pause()`: set the pause flag; the current utterance will
report `pause`. -/
def enginePause (e : Engine) : Engine :=
  { e with paused := true,
           pending := e.pending ++
             (match e.queue with
              | u :: _ => [EngEvent.pausedEv u]
              | [] => []) }

/-- `synth.resume()`: clear the pause flag; the current utterance will
report `resume`. -/
def engineResume (e : Engine) : Engine :=
  { e with paused := false,
           pending := e.pending ++
             (match e.queue with
              | u :: _ => [EngEvent.resumedEv u]
              | [] => []) }

/-- Natural completion inside the engine: the current utterance reports
`end` (natural cause) and leaves the queue. -/
def engineFinish (e : Engine) : Engine :=
  match e.queue with
  | [] => e
  | u :: rest =>
    { e with queue := rest, speaking := !rest.isEmpty,
             pending := e.pending ++ [EngEvent.ended u .natural] }

/-- Observable actions of the controller: calls into the engine, UI
hook invocations (`onSpeechStart` …), console logs, and transient user
notifications (`NotificationManager.show`). -/
inductive Ev
  | callCancel
  | callSpeak (u : Utterance)
  | callPause
  | callResume
  | uiStart
  | uiEnd
  | uiPause
  | uiResume
  | uiError
  | logWarn
  | logInfo
  | logError
  | notify
deriving DecidableEq

/-- The state of a `SpeechManager` instance together with its engine. -/
structure MState where
  synthAvailable : Bool
  engine : Engine
  currentUtterance : Option Utterance
  settings : Settings
deriving DecidableEq

/-- A freshly constructed manager: idle engine, no current utterance,
default settings. -/
def initManager (avail : Bool) : MState :=
  { synthAvailable := avail,
    engine := { queue := [], speaking := false, paused := false, pending := [] },
    currentUtterance := none,
    settings := initSettings }

/-- `SpeechManager.stop`: cancel the engine (guarded by `this.synth`),
null out `currentUtterance`, and invoke the `onSpeechEnd` UI hook —
all unconditionally. -/
def stop (st : MState) : MState × List Ev :=
  if st.synthAvailable then
    ({ st with engine := engineCancel st.engine, currentUtterance := none },
     [Ev.callCancel, Ev.uiEnd])
  else
    ({ st with currentUtterance := none }, [Ev.uiEnd])

/-- JS `a || b` on an optional number: `a` unless it is absent or falsy
(zero), in which case `b`. -/
def jsOrQ : Option ℚ → ℚ → ℚ
  | none, d => d
  | some v, d => if v = 0 then d else v

/-- JS `a || b` on an optional voice handle: object values are truthy,
absent/null falls back. -/
def jsOrVoice : Option Voice → Option Voice → Option Voice
  | none, d => d
  | some v, _ => some v

/-- The `options` argument of `speak` (absent fields are `undefined`). -/
structure SpeakOptions where
  rate : Option ℚ := none
  pitch : Option ℚ := none
  volume : Option ℚ := none
  voice : Option Voice := none
deriving DecidableEq

/-- The utterance `speak` constructs: cleaned text, and each numeric or
voice field merged as `options.x || this.settings.x`. -/
def mkUtterance (text : Str) (opts : SpeakOptions) (s : Settings) : Utterance :=
  { text := text,
    rate := jsOrQ opts.rate s.rate,
    pitch := jsOrQ opts.pitch s.pitch,
    volume := jsOrQ opts.volume s.volume,
    voice := jsOrVoice opts.voice s.voice }

/-- `SpeechManager.speak(text, options)`: warn and return when the
engine is unavailable; otherwise `stop()` first, clean the text, warn
and return when nothing speakable remains, else build the utterance,
store it as `currentUtterance` and submit it to the engine.  (The
`try/catch` around `synth.speak` is modelled with a non-throwing
engine.) -/
def speak (st : MState) (text : Str) (opts : SpeakOptions) : MState × List Ev :=
  if !st.synthAvailable then (st, [Ev.logWarn])
  else
    let p := stop st
    let cleanText := prepareText text
    if (trimJS cleanText).isEmpty then (p.1, p.2 ++ [Ev.logWarn])
    else
      let u := mkUtterance cleanText opts p.1.settings
      ({ p.1 with currentUtterance := some u, engine := engineSpeak p.1.engine u },
       p.2 ++ [Ev.callSpeak u])

/-- `SpeechManager.pause`: engine pause only when
`this.synth && this.synth.speaking && !this.synth.paused`. -/
def pause (st : MState) : MState × List Ev :=
  if st.synthAvailable && st.engine.speaking && !st.engine.paused then
    ({ st with engine := enginePause st.engine }, [Ev.callPause])
  else (st, [])

/-- `SpeechManager.resume`: engine resume only when
`this.synth && this.synth.paused`. -/
def resume (st : MState) : MState × List Ev :=
  if st.synthAvailable && st.engine.paused then
    ({ st with engine := engineResume st.engine }, [Ev.callResume])
  else (st, [])

/-- Delivery of one pending engine notification, replaying the handler
`speak` installed on every utterance: `onend`/`onerror` also null out
`currentUtterance`; each handler logs and invokes its UI hook
(`onSpeechError` additionally shows a user notification). -/
def deliverEvent (ev : EngEvent) (st : MState) : MState × List Ev :=
  match ev with
  | .started _ => (st, [Ev.logInfo, Ev.uiStart])
  | .ended _ _ => ({ st with currentUtterance := none }, [Ev.logInfo, Ev.uiEnd])
  | .errored _ => ({ st with currentUtterance := none }, [Ev.logError, Ev.uiError, Ev.notify])
  | .pausedEv _ => (st, [Ev.logInfo, Ev.uiPause])
  | .resumedEv _ => (st, [Ev.logInfo, Ev.uiResume])

/-- The session states of the spec's state machine, as read off the
engine flags (`isSpeaking`/`isPaused`). -/
inductive SessionState
  | idle
  | speaking
  | paused
deriving DecidableEq

/-- The session state: Paused when the engine is speaking with the
pause flag set, Speaking when speaking unpaused, Idle otherwise. -/
def sessionOf (e : Engine) : SessionState :=
  if e.speaking then (if e.paused then .paused else .speaking) else .idle

/-! ## The voice selection policy (`loadVoices`) -/

/-- ASCII lowercasing, as `String.prototype.toLowerCase` acts on the
names at issue. -/
def toLowerStr (s : Str) : Str := s.map Char.toLower

/-- `hay.includes(needle)`: `needle` occurs contiguously in `hay`. -/
def containsSub (needle hay : Str) : Bool :=
  hay.tails.any (fun t => needle.isPrefixOf t)

/-- The fixed list of female-indicative substrings `loadVoices` looks
for in lowercased voice names. -/
def femaleIndicators : List Str :=
  ["female".data, "woman".data, "samantha".data, "karen".data, "victoria".data]

/-- A voice whose lowercased display name contains one of the
female-indicative substrings. -/
def isFemaleNamed (v : Voice) : Bool :=
  femaleIndicators.any (fun sub => containsSub sub (toLowerStr v.name))

/-- An English voice: `voice.lang.startsWith('en-') || voice.lang ===
'en'`. -/
def isEnglishVoice (v : Voice) : Bool :=
  "en-".data.isPrefixOf v.lang || v.lang == "en".data

/-- The default-voice choice of `loadVoices` over a catalog: the first
female-named English voice, else the first English voice, else the
first voice of the catalog, else the previous value (left unset when it
was unset). -/
def selectDefaultVoice (voices : List Voice) (current : Option Voice) : Option Voice :=
  let english := voices.filter isEnglishVoice
  match english with
  | e :: _ => some ((english.find? isFemaleNamed).getD e)
  | [] =>
    match voices with
    | v :: _ => some v
    | [] => current

/-- `SpeechManager.loadVoices`: refresh the catalog snapshot and apply
the selection policy to `settings.voice`. -/
def loadVoices (st : MState) (catalog : List Voice) : MState :=
  { st with settings :=
      { st.settings with voice := selectDefaultVoice catalog st.settings.voice } }

example : prepareText "a\nb".data = "a b".data := by decide
example : prepareText "a123456b".data = "a123456b".data := by decide
example : prepareText "  hi   there ".data = "hi there".data := by decide
example : prepareText "n 123456 m".data = "n 1 2 3 4 5 6 m".data := by decide
example : prepareText "see http://x.com now".data = "see link now".data := by decide
example : prepareText "wow!! ok.. ?".data = "wow! ok. ?".data := by decide
example : prepareText "a. . .".data = "a. .".data := by decide
example : prepareText "123".data = "123".data := by decide
example : prepareText "1234".data = "1 2 3 4".data := by decide

example :
    selectDefaultVoice
      [{ name := "Microsoft David".data, lang := "en-US".data },
       { name := "Samantha".data, lang := "en-US".data }] none =
      some { name := "Samantha".data, lang := "en-US".data } := by decide

example :
    (speak (initManager true) "hello".data {}).2 =
      [Ev.callCancel, Ev.uiEnd,
       Ev.callSpeak (mkUtterance (prepareText "hello".data) {} initSettings)] := by decide

/-! ## Claims about the text normalizer's length behaviour -/

/-- Claim C6: for every input whose cleaned text exceeds 3000 units,
`prepareText` returns exactly the first 3000 units of the cleaned text
followed by the fixed truncation notice; when the cleaned text is at
most 3000 units it is returned unchanged, without the notice. -/
theorem prepare_text_truncation (t : Str) :
    (3000 < (cleanChain t).length →
      prepareText t = (cleanChain t).take 3000 ++ truncNotice) ∧
    ((cleanChain t).length ≤ 3000 → prepareText t = cleanChain t) := by
  cases t with
  | nil =>
    refine ⟨fun hlt => absurd hlt (by decide), fun _ => rfl⟩
  | cons a as =>
    refine ⟨fun hlt => ?_, fun hle => ?_⟩
    · simp [prepareText, hlt]
    · simp [prepareText, Nat.not_lt.mpr hle]

/-- Claim C6 witness: a short input is returned as its cleaned text,
with no truncation notice. -/
theorem prepare_text_truncation_witness :
    (cleanChain "hello".data).length ≤ 3000 ∧
    prepareText "hello".data = cleanChain "hello".data :=
  ⟨by decide, (prepare_text_truncation "hello".data).2 (by decide)⟩

/-- Claim C10: the normalizer's output never exceeds 3000 units plus
the 30-unit truncation notice, i.e. 3030 units, for any input. -/
theorem prepare_text_length_bound (t : Str) : (prepareText t).length ≤ 3030 := by
  by_cases h0 : t.isEmpty
  · simp [prepareText, h0]
  · by_cases h : 3000 < (cleanChain t).length
    · have hp : prepareText t = (cleanChain t).take 3000 ++ truncNotice := by
        simp [prepareText, h0, h]
      have h30 : truncNotice.length = 30 := rfl
      rw [hp, List.length_append, List.length_take, h30]
      omega
    · have hp : prepareText t = cleanChain t := by
        simp [prepareText, h0, h]
      rw [hp]
      omega

/-! ## Claims about `stop`, `pause` and `resume` -/

/-- Claim C8: in every state with the engine present — including Idle
with nothing playing — `stop()` cancels engine playback, clears the
active request, transitions the session to Idle, invokes the
speech-ended hook, and is idempotent. -/
theorem stop_unconditional (st : MState) (h : st.synthAvailable = true) :
    (stop st).1.currentUtterance = none ∧
    sessionOf (stop st).1.engine = SessionState.idle ∧
    (stop st).2 = [Ev.callCancel, Ev.uiEnd] ∧
    (stop (stop st).1).1 = (stop st).1 := by
  simp [stop, h, engineCancel, sessionOf]

/-- Claim C8 witness: `stop` on the freshly constructed (Idle) manager. -/
theorem stop_unconditional_witness :
    (stop (initManager true)).1.currentUtterance = none ∧
    sessionOf (stop (initManager true)).1.engine = SessionState.idle ∧
    (stop (initManager true)).2 = [Ev.callCancel, Ev.uiEnd] ∧
    (stop (stop (initManager true)).1).1 = (stop (initManager true)).1 :=
  stop_unconditional (initManager true) rfl

/-- Claim C9: `pause()` is a no-op unless the session is exactly
Speaking, and `resume()` is a no-op unless it is exactly Paused; when
Speaking, `pause()` moves the session to Paused, issues the engine
pause call, and schedules the pause notification whose delivery fires
the pause hook.  (The engine well-formedness hypothesis `paused →
speaking` matches the browser flags: `paused` only holds while an
utterance is in progress.) -/
theorem pause_resume_gating (st : MState)
    (hwf : st.engine.paused = true → st.engine.speaking = true) :
    (¬(st.synthAvailable = true ∧ sessionOf st.engine = SessionState.speaking) →
        pause st = (st, [])) ∧
    (st.synthAvailable = true → sessionOf st.engine = SessionState.speaking →
        sessionOf (pause st).1.engine = SessionState.paused ∧
        (pause st).2 = [Ev.callPause] ∧
        ∀ u rest, st.engine.queue = u :: rest →
          (pause st).1.engine.pending = st.engine.pending ++ [EngEvent.pausedEv u] ∧
          (deliverEvent (EngEvent.pausedEv u) (pause st).1).2 = [Ev.logInfo, Ev.uiPause]) ∧
    (¬(st.synthAvailable = true ∧ sessionOf st.engine = SessionState.paused) →
        resume st = (st, [])) ∧
    (st.synthAvailable = true → sessionOf st.engine = SessionState.paused →
        sessionOf (resume st).1.engine = SessionState.speaking ∧
        (resume st).2 = [Ev.callResume]) := by
  obtain ⟨avail, eng, cur, s⟩ := st
  obtain ⟨q, spk, psd, pend⟩ := eng
  cases avail <;> cases spk <;> cases psd <;>
    simp_all [pause, resume, sessionOf, enginePause, engineResume, deliverEvent]

/-- Claim C9 witness: `pause` acts on a concrete Speaking state and is
a no-op on the Idle initial state. -/
theorem pause_resume_gating_witness :
    sessionOf (pause (speak (initManager true) "hello".data {}).1).1.engine =
        SessionState.paused ∧
    (pause (speak (initManager true) "hello".data {}).1).2 = [Ev.callPause] ∧
    pause (initManager true) = (initManager true, []) := by
  have h := pause_resume_gating (speak (initManager true) "hello".data {}).1 (by decide)
  have h0 := pause_resume_gating (initManager true) (by decide)
  exact ⟨(h.2.1 (by decide) (by decide)).1, (h.2.1 (by decide) (by decide)).2.1,
         h0.1 (by decide)⟩

/-! ## Claims about `speak` -/

/-- Claim C1: a `speak()` call that proceeds while an utterance is
active first cancels the in-flight request (engine cancel precedes the
engine speak in the call trace), stores exactly the newly built
utterance as the current one, and schedules the superseded utterance's
end notification with cancellation — not natural completion — as its
cause; delivering that notification fires the end hook. -/
theorem speak_supersedes (st : MState) (text : Str) (opts : SpeakOptions)
    (uOld : Utterance)
    (hAvail : st.synthAvailable = true)
    (_hCur : st.currentUtterance = some uOld)
    (hQ : st.engine.queue = [uOld])
    (hText : (trimJS (prepareText text)).isEmpty = false) :
    (speak st text opts).1.currentUtterance =
        some (mkUtterance (prepareText text) opts st.settings) ∧
    (speak st text opts).1.engine.queue =
        [mkUtterance (prepareText text) opts st.settings] ∧
    (speak st text opts).1.engine.pending =
        st.engine.pending ++
          [EngEvent.ended uOld EndCause.cancelled,
           EngEvent.started (mkUtterance (prepareText text) opts st.settings)] ∧
    (speak st text opts).2 =
        [Ev.callCancel, Ev.uiEnd,
         Ev.callSpeak (mkUtterance (prepareText text) opts st.settings)] ∧
    (deliverEvent (EngEvent.ended uOld EndCause.cancelled) (speak st text opts).1).2 =
        [Ev.logInfo, Ev.uiEnd] := by
  simp [speak, stop, hAvail, hText, engineCancel, engineSpeak, hQ, deliverEvent]

/-- A manager that is speaking the cleaned text `hello` (reached from
the initial state by one `speak`). -/
def stSpeakingHello : MState := (speak (initManager true) "hello".data {}).1

/-- The utterance built by that first `speak`. -/
def uttHello : Utterance :=
  mkUtterance (prepareText "hello".data) {} (initManager true).settings

/-- Claim C1 witness: a second `speak` supersedes the first concrete
utterance. -/
theorem speak_supersedes_witness :
    (speak stSpeakingHello "world".data {}).1.currentUtterance =
        some (mkUtterance (prepareText "world".data) {} stSpeakingHello.settings) ∧
    (speak stSpeakingHello "world".data {}).2 =
        [Ev.callCancel, Ev.uiEnd,
         Ev.callSpeak (mkUtterance (prepareText "world".data) {} stSpeakingHello.settings)] := by
  have h := speak_supersedes stSpeakingHello "world".data {} uttHello
      (by decide) (by decide) (by decide) (by decide)
  exact ⟨h.1, h.2.2.2.1⟩

/-- Claim C2 counterexample: `speak` on empty input does reach the
engine — the unconditional `stop()` at its start issues an engine
cancel — and shows no user notification (it only logs). -/
theorem speak_empty_counterexample :
    Ev.callCancel ∈ (speak (initManager true) [] {}).2 ∧
    Ev.notify ∉ (speak (initManager true) [] {}).2 := by decide

/-- Claim C2 as amended: with no engine, `speak` logs and returns with
no engine call; with an engine but empty normalized text, `speak` logs
and returns without submitting an utterance, but the initial
unconditional `stop()` has already issued an engine cancel and fired
the end hook, and no user notification is shown in either case. -/
theorem speak_unspeakable_amended (st : MState) (text : Str) (opts : SpeakOptions) :
    (st.synthAvailable = false → speak st text opts = (st, [Ev.logWarn])) ∧
    (st.synthAvailable = true → (trimJS (prepareText text)).isEmpty = true →
      speak st text opts =
        ({ st with engine := engineCancel st.engine, currentUtterance := none },
         [Ev.callCancel, Ev.uiEnd, Ev.logWarn])) := by
  constructor
  · intro h; simp [speak, h]
  · intro h ht; simp [speak, stop, h, ht]

/-- Claim C2 witness: both silent-failure branches at concrete inputs. -/
theorem speak_unspeakable_amended_witness :
    speak (initManager false) "hi".data {} = (initManager false, [Ev.logWarn]) ∧
    speak (initManager true) [] {} =
      ({ initManager true with
          engine := engineCancel (initManager true).engine,
          currentUtterance := none },
       [Ev.callCancel, Ev.uiEnd, Ev.logWarn]) :=
  ⟨(speak_unspeakable_amended (initManager false) "hi".data {}).1 rfl,
   (speak_unspeakable_amended (initManager true) [] {}).2 rfl (by decide)⟩

/-- Claim C3 counterexample: an explicit `rate: 0` in the options is
falsy for `||`, so the constructed utterance carries the Settings
default 0.9, not the explicitly provided 0. -/
theorem speak_zero_rate_counterexample :
    ((speak (initManager true) "hello".data
        { rate := some 0 }).1.currentUtterance.map Utterance.rate) =
      some (mkRat 9 10) ∧
    mkRat 9 10 ≠ (0 : ℚ) := by decide

/-- Claim C3 as amended: each field of the constructed utterance equals
the options value when that value is truthy (a nonzero number, or a
voice handle), and the Settings default otherwise — explicit falsy
values such as 0 fall back to Settings. -/
theorem speak_merge_amended (st : MState) (text : Str) (opts : SpeakOptions)
    (hAvail : st.synthAvailable = true)
    (hText : (trimJS (prepareText text)).isEmpty = false) :
    (speak st text opts).1.currentUtterance = some
      { text := prepareText text,
        rate := match opts.rate with
                | none => st.settings.rate
                | some v => if v = 0 then st.settings.rate else v,
        pitch := match opts.pitch with
                 | none => st.settings.pitch
                 | some v => if v = 0 then st.settings.pitch else v,
        volume := match opts.volume with
                  | none => st.settings.volume
                  | some v => if v = 0 then st.settings.volume else v,
        voice := match opts.voice with
                 | none => st.settings.voice
                 | some v => some v } := by
  have h : (speak st text opts).1.currentUtterance =
      some (mkUtterance (prepareText text) opts st.settings) := by
    simp [speak, stop, hAvail, hText]
  rw [h]
  obtain ⟨r, p, v, vc⟩ := opts
  cases r <;> cases p <;> cases v <;> cases vc <;> simp [mkUtterance, jsOrQ, jsOrVoice]

/-- Claim C3 witness: a truthy `rate: 2` is kept, a falsy `volume: 0`
falls back to the 0.8 default, unset `pitch`/`voice` take the
defaults. -/
theorem speak_merge_amended_witness :
    (speak (initManager true) "hello".data
        { rate := some 2, volume := some 0 }).1.currentUtterance =
      some { text := prepareText "hello".data, rate := 2, pitch := 1,
             volume := mkRat 4 5, voice := none } := by
  have h := speak_merge_amended (initManager true) "hello".data
      { rate := some 2, volume := some 0 } rfl (by decide)
  rw [h]
  decide

/-- Claim C5: the code's own comment says newline runs become periods
(`.replace(/\n+/g, '. ')`), but the preceding `\s+` collapse has
already turned every line feed into a plain space, so the replacement
is dead: a line break is rendered as a space and no period appears. -/
theorem newline_rendered_as_space :
    prepareText "a\nb".data = "a b".data ∧ '.' ∉ prepareText "a\nb".data := by decide

/-- The dead-code fact behind claim C5: after the whitespace collapse
no line feed remains, so the newline stage of the chain never fires. -/
theorem newlineStep_dead_after_collapse (inRun : Bool) (t : Str) :
    newlineStep false (collapseWS inRun t) = collapseWS inRun t := by
  induction t generalizing inRun with
  | nil => rfl
  | cons c cs ih =>
    by_cases h : isJsSpace c
    · cases inRun <;> simp [collapseWS, h, newlineStep, ih]
    · have hc : (c == '\n') = false := by
        cases hcn : c == '\n'
        · rfl
        · exact absurd (by simp [isJsSpace, (beq_iff_eq).mp hcn]) h
      simp [collapseWS, h, newlineStep, hc, ih]

/-! ## Claim about the voice selection policy -/

/-- Claim C7: the policy filters to English voices ("en"/"en-*"), picks
the first female-named one (fixed case-insensitive substring list),
else the first English voice, else the first catalog voice, else makes
no change (an unset default stays unset); on the David/Samantha catalog
it selects Samantha. -/
theorem voice_selection_policy :
    (∀ (voices : List Voice) (cur : Option Voice) (e : Voice) (es : List Voice),
        voices.filter isEnglishVoice = e :: es →
        selectDefaultVoice voices cur = some (((e :: es).find? isFemaleNamed).getD e)) ∧
    (∀ (voices : List Voice) (cur : Option Voice) (v : Voice) (vs : List Voice),
        voices.filter isEnglishVoice = [] → voices = v :: vs →
        selectDefaultVoice voices cur = some v) ∧
    (∀ cur : Option Voice, selectDefaultVoice [] cur = cur) ∧
    selectDefaultVoice
      [{ name := "Microsoft David".data, lang := "en-US".data },
       { name := "Samantha".data, lang := "en-US".data }] none =
      some { name := "Samantha".data, lang := "en-US".data } := by
  refine ⟨?_, ?_, ?_, by decide⟩
  · intro voices cur e es h
    simp [selectDefaultVoice, h]
  · intro voices cur v vs h hv
    subst hv
    simp [selectDefaultVoice, h]
  · intro cur
    rfl

/-- Claim C7 witness: a catalog with no female-named English voice
falls back to the first English voice. -/
theorem voice_selection_policy_witness :
    selectDefaultVoice
      [{ name := "Anna".data, lang := "de-DE".data },
       { name := "Fred".data, lang := "en".data }] none =
      some { name := "Fred".data, lang := "en".data } := by
  have h := voice_selection_policy.1
      [{ name := "Anna".data, lang := "de-DE".data },
       { name := "Fred".data, lang := "en".data }] none
      { name := "Fred".data, lang := "en".data } [] (by decide)
  rw [h]
  decide

/-! ## Claim about the long-number spacing (digit runs)

The regex `\b\d{4,}\b` requires word boundaries, so a digit run
embedded in word characters (as in `a123456b`) is not matched; only
standalone runs are spaced.  The lemmas below track the scanner
`digitGo` through a prefix ending at a word boundary and through the
run itself. -/

/-- A digit is a word character for the JS `\b` boundary test. -/
theorem isJsWordChar_of_digit (c : Char) (h : c.isDigit = true) :
    isJsWordChar c = true := by
  simp [isJsWordChar, Char.isAlphanum, h]

/-- Flushing an empty buffer emits nothing. -/
theorem digitFlush_nil (s e : Bool) : digitFlush s e [] = [] := by
  simp [digitFlush]

/-- With an empty buffer the run-start flag is irrelevant: it is
recomputed when the next digit arrives. -/
theorem digitGo_startOK_irrel (pw rs rs' : Bool) (xs : Str) :
    digitGo pw rs [] xs = digitGo pw rs' [] xs := by
  cases xs with
  | nil => simp [digitGo, digitFlush]
  | cons c cs =>
    by_cases h : c.isDigit
    · simp [digitGo, h]
    · simp [digitGo, h, digitFlush_nil]

/-- Consuming a digit sequence extends the buffer and changes nothing
else while the buffer is nonempty. -/
theorem digitGo_consume (ds : Str) (hds : ∀ c ∈ ds, c.isDigit = true) :
    ∀ (rest : Str) (rs : Bool) (buf : Str), buf ≠ [] →
      digitGo true rs buf (ds ++ rest) = digitGo true rs (buf ++ ds) rest := by
  induction ds with
  | nil => intro rest rs buf _; simp
  | cons d ds ih =>
    intro rest rs buf hb
    have hd : d.isDigit = true := hds d (by simp)
    have hbe : buf.isEmpty = false := by
      cases buf
      · exact absurd rfl hb
      · rfl
    have ih' := ih (fun c hc => hds c (by simp [hc])) rest rs (buf ++ [d]) (by simp)
    simp [digitGo, hd, hbe, ih', List.append_assoc]

/-- The first element a `dropWhile` leaves fails the predicate. -/
theorem head_dropWhile_false (p : Char → Bool) :
    ∀ (l : Str) (c : Char) (cs : Str), l.dropWhile p = c :: cs → p c = false := by
  intro l
  induction l with
  | nil => intro c cs h; cases h
  | cons a as ih =>
    intro c cs h
    rw [List.dropWhile_cons] at h
    by_cases hp : p a
    · rw [if_pos hp] at h
      exact ih c cs h
    · rw [if_neg hp] at h
      injection h with h1 _
      rw [← h1]
      simpa using hp

/-- The long-number scanner passes through a prefix whose last
character is not a word character and arrives at the rest of the input
in its boundary state: processing `pre ++ tail` is processing `pre`
followed by processing `tail` from a word boundary. -/
theorem digitGo_through (n : ℕ) :
    ∀ (pre : Str), pre.length ≤ n → ∀ (pw rs : Bool) (tail : Str),
      (pre = [] → pw = false) →
      (∀ (p : Str) (c : Char), pre = p ++ [c] → isJsWordChar c = false) →
      ∃ out : Str, digitGo pw rs [] (pre ++ tail) = out ++ digitGo false true [] tail := by
  induction n with
  | zero =>
    intro pre hlen pw rs tail h0 _
    have hp : pre = [] := List.length_eq_zero.mp (Nat.le_zero.mp hlen)
    subst hp
    refine ⟨[], ?_⟩
    rw [h0 rfl]
    simpa using digitGo_startOK_irrel false rs true tail
  | succ n ih =>
    intro pre hlen pw rs tail h0 hl
    cases pre with
    | nil =>
      refine ⟨[], ?_⟩
      rw [h0 rfl]
      simpa using digitGo_startOK_irrel false rs true tail
    | cons c pre' =>
      by_cases hd : c.isDigit
      · -- a digit run starts `pre`; it cannot reach the end of `pre`,
        -- so `pre' = ds ++ e :: r'` with `ds` digits and `e` no digit
        have hdecomp : ∃ (ds : Str) (e : Char) (r' : Str),
            (∀ x ∈ ds, x.isDigit = true) ∧ e.isDigit = false ∧
            pre' = ds ++ e :: r' := by
          have hsplit := List.takeWhile_append_dropWhile (fun x => x.isDigit) pre'
          have hdds : ∀ x ∈ pre'.takeWhile (fun x => x.isDigit), x.isDigit = true :=
            fun x hx => List.mem_takeWhile_imp hx
          cases hrc : pre'.dropWhile (fun x => x.isDigit) with
          | nil =>
            exfalso
            have hpds : ∀ x ∈ pre', x.isDigit = true := by
              intro x hx
              refine hdds x ?_
              have h1 : pre'.takeWhile (fun x => x.isDigit) ++ ([] : Str) = pre' := by
                rw [← hrc]; exact hsplit
              rw [List.append_nil] at h1
              rw [h1]
              exact hx
            have hprene : (c :: pre') ≠ ([] : Str) := by simp
            have hlast := hl (c :: pre').dropLast ((c :: pre').getLast hprene)
              (List.dropLast_append_getLast hprene).symm
            have hmem := List.getLast_mem hprene
            have hall : ∀ x ∈ c :: pre', x.isDigit = true := by
              intro x hx
              rcases List.mem_cons.mp hx with h1 | h2
              · rw [h1]; exact hd
              · exact hpds x h2
            have htrue := isJsWordChar_of_digit _ (hall _ hmem)
            rw [hlast] at htrue
            exact absurd htrue (by decide)
          | cons e r' =>
            refine ⟨pre'.takeWhile (fun x => x.isDigit), e, r', hdds,
              head_dropWhile_false _ pre' e r' hrc, ?_⟩
            rw [← hrc]
            exact hsplit.symm
        obtain ⟨ds, e, r', hdds, he, hpre'⟩ := hdecomp
        subst hpre'
        have step1 : digitGo pw rs [] ((c :: (ds ++ e :: r')) ++ tail) =
            digitGo true (!pw) [c] ((ds ++ e :: r') ++ tail) := by
          simp [digitGo, hd]
        have step2 : digitGo true (!pw) [c] ((ds ++ e :: r') ++ tail) =
            digitGo true (!pw) (c :: ds) ((e :: r') ++ tail) := by
          rw [List.append_assoc]
          exact digitGo_consume ds hdds _ (!pw) [c] (by simp)
        have step3 : digitGo true (!pw) (c :: ds) ((e :: r') ++ tail) =
            digitFlush (!pw) (!isJsWordChar e) (c :: ds) ++
              e :: digitGo (isJsWordChar e) true [] (r' ++ tail) := by
          simp [digitGo, he]
        cases r' with
        | nil =>
          have hle : isJsWordChar e = false := by
            refine hl (c :: ds) e ?_
            rfl
          refine ⟨digitFlush (!pw) (!isJsWordChar e) (c :: ds) ++ [e], ?_⟩
          rw [step1, step2, step3, hle]
          simp
        | cons f r'' =>
          have hlen' : (f :: r'').length ≤ n := by
            simp [List.length_append] at hlen
            simp
            omega
          have hl' : ∀ (p : Str) (ch : Char), f :: r'' = p ++ [ch] →
              isJsWordChar ch = false := by
            intro p ch hp
            refine hl ((c :: ds) ++ e :: p) ch ?_
            rw [hp]
            simp
          obtain ⟨out', hout⟩ := ih (f :: r'') hlen' (isJsWordChar e) true tail
            (by intro h; cases h) hl'
          refine ⟨digitFlush (!pw) (!isJsWordChar e) (c :: ds) ++ e :: out', ?_⟩
          rw [step1, step2, step3, hout]
          simp [List.append_assoc]
      · -- non-digit head: emitted unchanged
        have hstep : digitGo pw rs [] ((c :: pre') ++ tail) =
            c :: digitGo (isJsWordChar c) true [] (pre' ++ tail) := by
          simp [digitGo, hd, digitFlush_nil]
        cases pre' with
        | nil =>
          have hlc : isJsWordChar c = false := hl [] c rfl
          refine ⟨[c], ?_⟩
          rw [hstep, hlc]
          simp
        | cons f r'' =>
          have hlen' : (f :: r'').length ≤ n := by
            simp at hlen ⊢
            omega
          have hl' : ∀ (p : Str) (ch : Char), f :: r'' = p ++ [ch] →
              isJsWordChar ch = false := by
            intro p ch hp
            exact hl (c :: p) ch (by rw [hp]; rfl)
          obtain ⟨out', hout⟩ := ih (f :: r'') hlen' (isJsWordChar c) true tail
            (by intro h; cases h) hl'
          refine ⟨c :: out', ?_⟩
          rw [hstep, hout]
          rfl

/-- Claim C4 counterexample: `a123456b` contains a 6-digit run, yet the
normalizer leaves it unchanged — no space is inserted between any of
its adjacent digits — because the run sits inside word characters and
`\b\d{4,}\b` does not match. -/
theorem digit_run_embedded_counterexample :
    prepareText "a123456b".data = "a123456b".data ∧
    containsSub "1 2".data (prepareText "a123456b".data) = false := by decide

/-- Claim C4 as amended: the long-number stage spaces exactly the digit
runs of length at least 4 that stand at word boundaries — every maximal
digit run of length ≥ 4 whose neighbours (if any) are non-word
characters is rewritten with a space between every pair of adjacent
digits; runs embedded in word characters, such as `a123456b`, are left
unchanged. -/
theorem break_long_numbers_amended (pre run post : Str)
    (hrun : ∀ c ∈ run, c.isDigit = true) (hlen : 4 ≤ run.length)
    (hpre : pre = [] ∨ ∃ (p : Str) (c : Char), pre = p ++ [c] ∧ isJsWordChar c = false)
    (hpost : post = [] ∨ ∃ (c : Char) (q : Str), post = c :: q ∧ isJsWordChar c = false) :
    ∃ out1 out2 : Str,
      breakLongNumbers (pre ++ run ++ post) =
        out1 ++ List.intersperse ' ' run ++ out2 := by
  have h0 : pre = [] → (false : Bool) = false := fun _ => rfl
  have hl : ∀ (p : Str) (c : Char), pre = p ++ [c] → isJsWordChar c = false := by
    intro p c hp
    rcases hpre with h | ⟨p', c', hp', hc'⟩
    · rw [h] at hp
      exact absurd hp.symm (by simp)
    · have hcc : p ++ [c] = p' ++ [c'] := hp.symm.trans hp'
      have h1 : some c = some c' := by
        calc some c = (p ++ [c]).getLast? := (List.getLast?_concat p).symm
          _ = (p' ++ [c']).getLast? := by rw [hcc]
          _ = some c' := List.getLast?_concat p'
      rw [Option.some.inj h1]
      exact hc'
  obtain ⟨out, hout⟩ :=
    digitGo_through pre.length pre le_rfl false true (run ++ post) h0 hl
  obtain ⟨d, ds, hrc⟩ : ∃ (d : Char) (ds : Str), run = d :: ds := by
    cases run with
    | nil => exact absurd hlen (by decide)
    | cons d ds => exact ⟨d, ds, rfl⟩
  have hd : d.isDigit = true := hrun d (by rw [hrc]; simp)
  have hds : ∀ x ∈ ds, x.isDigit = true :=
    fun x hx => hrun x (by rw [hrc]; simp [hx])
  have hstep : digitGo false true [] (run ++ post) = digitGo true true run post := by
    conv_lhs => rw [hrc]
    have h1 : digitGo false true [] ((d :: ds) ++ post) =
        digitGo true true [d] (ds ++ post) := by
      simp [digitGo, hd]
    rw [h1, digitGo_consume ds hds post true [d] (by simp), hrc]
    rfl
  have hassoc : pre ++ run ++ post = pre ++ (run ++ post) := List.append_assoc ..
  rcases hpost with hpn | ⟨e, q, hpq, hew⟩
  · refine ⟨out, [], ?_⟩
    show digitGo false true [] (pre ++ run ++ post) = _
    rw [hassoc, hout, hstep, hpn]
    have hfin : digitGo true true run [] = List.intersperse ' ' run := by
      show digitFlush true true run = _
      rw [digitFlush, if_pos ⟨rfl, rfl, hlen⟩]
    rw [hfin]
    simp
  · have hed : e.isDigit = false := by
      cases hcd : e.isDigit
      · rfl
      · exact absurd (isJsWordChar_of_digit e hcd) (by rw [hew]; simp)
    refine ⟨out, e :: digitGo (isJsWordChar e) true [] q, ?_⟩
    show digitGo false true [] (pre ++ run ++ post) = _
    rw [hassoc, hout, hstep, hpq]
    have hstep2 : digitGo true true run (e :: q) =
        digitFlush true (!isJsWordChar e) run ++
          e :: digitGo (isJsWordChar e) true [] q := by
      conv_lhs => rw [hrc]
      rw [show digitGo true true (d :: ds) (e :: q) =
          digitFlush true (!isJsWordChar e) (d :: ds) ++
            e :: digitGo (isJsWordChar e) true [] q from by simp [digitGo, hed]]
      rw [← hrc]
    rw [hstep2, hew]
    have hfl : digitFlush true (!false) run = List.intersperse ' ' run := by
      rw [digitFlush, if_pos ⟨rfl, rfl, hlen⟩]
    rw [hfl]
    simp [List.append_assoc]

/-- Claim C4 witness: a standalone 6-digit run between non-word
neighbours is spaced digit by digit. -/
theorem break_long_numbers_amended_witness :
    ∃ out1 out2 : Str,
      breakLongNumbers ("x ".data ++ "123456".data ++ " y".data) =
        out1 ++ List.intersperse ' ' "123456".data ++ out2 := by
  refine break_long_numbers_amended "x ".data "123456".data " y".data
    (by decide) (by decide) (Or.inr ⟨"x".data, ' ', by decide, by decide⟩)
    (Or.inr ⟨' ', "y".data, by decide, by decide⟩)

end SmartTutors
